import Mathlib

/-!
Shallow embedding of the GRREngine scheduling/scripting core:
`src/game/ActionRunner.js` (classes `ActionRunner` and `GameState`),
`src/engine/GameLoop.js` (class `GameLoop`), and the `actionRunner`
fragment of `src/engine/Engine.js` (`setMode`).

Modelling conventions:
* JavaScript numbers are modelled as `ℚ` (the code only adds, subtracts
  and compares them; IEEE-754 rounding is outside the scope of the
  claims).  The decimal rendering of a number inside a dialog string is
  abstracted by `Rat`'s `toString`; no claim depends on number
  formatting.
* JavaScript objects used as string-keyed maps (`flags`, `vars`) are
  association lists in insertion order: property assignment overwrites
  an existing key in place, otherwise appends (mirroring JS property
  order).
* A JS `undefined` object key coerces to the string `"undefined"`
  (`obj[undefined] === obj["undefined"]`), modelled by `keyOf`.
* `console.warn` is a pure no-op here.
* The runner state carries a ghost `log` field recording every action
  passed to `_execute`, in order; no executable branch reads it.  It is
  the observable used to state execution-order properties.
-/

namespace GRR

/-- A JavaScript primitive value as stored in `params` or `GameState.vars`
(`number | string | boolean`). -/
inductive JSVal where
  | num (q : ℚ)
  | str (s : String)
  | boolV (b : Bool)
deriving DecidableEq

/-- JS truthiness of a primitive value (`!!v`): `0`, `""` and `false` are
falsy. -/
def truthy : JSVal → Bool
  | .num q => q != 0
  | .str s => s != ""
  | .boolV b => b

/-- `x || d` on an optional number: `undefined` and `0` fall back to `d`. -/
def jsOrQ (v : Option ℚ) (d : ℚ) : ℚ :=
  match v with
  | none => d
  | some x => if x = 0 then d else x

/-- `x || d` on an optional string: `undefined` and `""` fall back to `d`. -/
def jsOrStr (v : Option String) (d : String) : String :=
  match v with
  | none => d
  | some s => if s = "" then d else s

/-- `v !== false` on an optional value (`undefined !== false` is true). -/
def jsNeqFalse (v : Option JSVal) : Bool :=
  v != some (.boolV false)

/-- A possibly-`undefined` string used as a JS object key: `undefined`
coerces to the key `"undefined"`. -/
def keyOf (v : Option String) : String :=
  v.getD "undefined"

/-- One inventory entry `{ name, amount }`. -/
structure Item where
  name : String
  amount : ℚ
deriving DecidableEq

/-- JS object property assignment on a string-keyed map: overwrite the
existing key in place, otherwise append (JS property insertion order). -/
def setAssoc {α : Type} (m : List (String × α)) (k : String) (v : α) :
    List (String × α) :=
  if m.any (fun e => e.1 = k) then
    m.map (fun e => if e.1 = k then (k, v) else e)
  else
    m ++ [(k, v)]

/-- Lookup on a string-keyed map (first match, like JS property access). -/
def getAssoc {α : Type} (m : List (String × α)) (k : String) : Option α :=
  (m.find? (fun e => e.1 = k)).map (fun e => e.2)

/-- `GameState` from `src/game/ActionRunner.js`: persistent flags,
variables and inventory. -/
structure GameState where
  flags : List (String × Bool)
  vars : List (String × JSVal)
  inventory : List Item
deriving DecidableEq

namespace GameState

/-- The `GameState` constructor: everything empty. -/
def new : GameState := ⟨[], [], []⟩

/-- `setFlag(key, value)`: stores `!!value`. -/
def setFlag (g : GameState) (key : String) (value : JSVal) : GameState :=
  { g with flags := setAssoc g.flags key (truthy value) }

/-- `getFlag(key)`: `!!this.flags[key]` (missing key reads as `false`). -/
def getFlag (g : GameState) (key : String) : Bool :=
  (getAssoc g.flags key).getD false

/-- `setVar(key, value)`. -/
def setVar (g : GameState) (key : String) (value : JSVal) : GameState :=
  { g with vars := setAssoc g.vars key value }

/-- `getVar(key, defaultVal)`: `this.vars[key] ?? defaultVal`. -/
def getVar (g : GameState) (key : String) (defaultVal : JSVal) : JSVal :=
  (getAssoc g.vars key).getD defaultVal

/-- `(this.vars[key] || 0)`: a falsy stored value (or a missing key)
reads as the number `0`. -/
def varOrZero (g : GameState) (key : String) : JSVal :=
  match getAssoc g.vars key with
  | none => .num 0
  | some v => if truthy v then v else .num 0

/-- JS `v + amount` for the values `varOrZero` can produce: a string
concatenates with the rendered number, `true` coerces to `1`.  (The
decimal rendering of `amount` is abstracted by `toString`.) -/
def jsPlus (v : JSVal) (amount : ℚ) : JSVal :=
  match v with
  | .num n => .num (n + amount)
  | .str s => .str (s ++ toString amount)
  | .boolV _ => .num (1 + amount)

/-- `addVar(key, amount)`: `this.vars[key] = (this.vars[key] || 0) + amount`. -/
def addVar (g : GameState) (key : String) (amount : ℚ) : GameState :=
  { g with vars := setAssoc g.vars key (jsPlus (varOrZero g key) amount) }

/-- Mutate the first inventory entry named `name` (the one `find` returns). -/
def updFirst (name : String) (f : Item → Item) : List Item → List Item
  | [] => []
  | i :: rest =>
    if i.name = name then f i :: rest else i :: updFirst name f rest

/-- `addItem(name, amount)`: bump the first existing entry, else push. -/
def addItem (g : GameState) (name : String) (amount : ℚ) : GameState :=
  match g.inventory.find? (fun i => i.name = name) with
  | some _ =>
      let inv1 :=
        updFirst name (fun i => { i with amount := i.amount + amount })
          g.inventory
      { g with inventory := inv1 }
  | none => { g with inventory := g.inventory ++ [⟨name, amount⟩] }

/-- `removeItem(name, amount)`: subtract from the first entry; if it
drops to `<= 0`, filter out every entry of that name.  Returns the JS
boolean result alongside the new state. -/
def removeItem (g : GameState) (name : String) (amount : ℚ) :
    Bool × GameState :=
  match g.inventory.find? (fun i => i.name = name) with
  | none => (false, g)
  | some existing =>
      let inv1 :=
        updFirst name (fun i => { i with amount := i.amount - amount })
          g.inventory
      if existing.amount - amount ≤ 0 then
        (true, { g with inventory := inv1.filter (fun i => i.name != name) })
      else
        (true, { g with inventory := inv1 })

/-- `hasItem(name, amount)`. -/
def hasItem (g : GameState) (name : String) (amount : ℚ) : Bool :=
  match g.inventory.find? (fun i => i.name = name) with
  | some existing => existing.amount ≥ amount
  | none => false

/-- `getItemCount(name)`. -/
def getItemCount (g : GameState) (name : String) : ℚ :=
  match g.inventory.find? (fun i => i.name = name) with
  | some existing => existing.amount
  | none => 0

/-- `reset()`. -/
def reset (_ : GameState) : GameState := ⟨[], [], []⟩

/-- The plain-JSON object `serialize()` returns (each field may be
absent when a foreign object is fed to `deserialize`). -/
structure SaveData where
  flags : Option (List (String × Bool))
  vars : Option (List (String × JSVal))
  inventory : Option (List Item)
deriving DecidableEq

/-- `serialize()`: shallow copies of the three containers (copying is
the identity on pure values). -/
def serialize (g : GameState) : SaveData :=
  { flags := some g.flags
    vars := some g.vars
    inventory := some (g.inventory.map (fun i => i)) }

/-- `deserialize(data)`: `if (!data) return;` then
`this.flags = data.flags || {}` etc. -/
def deserialize (g : GameState) (data : Option SaveData) : GameState :=
  match data with
  | none => g
  | some d =>
      { flags := d.flags.getD []
        vars := d.vars.getD []
        inventory := (d.inventory.getD []).map (fun i => i) }

end GameState

/-- The slice of the `Camera` object (`src/engine/Camera.js`) that
`ActionRunner` reads and writes.  `targetPlayer` models whether
`camera.target` currently references the player object (the only target
the runner ever installs); fields the runner never touches (zoom,
bounds) are omitted. -/
structure CameraSt where
  x : ℚ
  y : ℚ
  smoothing : ℚ
  targetPlayer : Bool
  panTarget : Option (ℚ × ℚ)
  panDuration : ℚ
  panElapsed : ℚ
  panStartX : ℚ
  panStartY : ℚ
deriving DecidableEq

/-- A placed editor entity as `teleport` / `remove_entity` see it:
`etype` models `e.type`, `spawnId` models `e.properties.spawnId`. -/
structure Ent where
  etype : String
  spawnId : Option String
  x : ℚ
  y : ℚ
  active : Bool
deriving DecidableEq

/-- The player position fields the runner touches. -/
structure PlayerSt where
  x : ℚ
  y : ℚ
deriving DecidableEq

/-- The engine-owned shared state the interpreter mutates: `GameState`,
dialog text/timer, camera, player, and the editor's placed-entity table
(`engine.editor.entityPlacer.entities`). -/
structure EngineSt where
  gameState : GameState
  dialogText : Option String
  dialogTimer : ℚ
  camera : CameraSt
  player : Option PlayerSt
  entities : List Ent
deriving DecidableEq

/-- The `params` bag of an action: every key any `_execute` branch
reads, each possibly absent.  `variable_` models the JS key
`variable`. -/
structure Params where
  text : Option String := none
  duration : Option ℚ := none
  seconds : Option ℚ := none
  flag : Option String := none
  value : Option JSVal := none
  expect : Option JSVal := none
  variable_ : Option String := none
  amount : Option ℚ := none
  item : Option String := none
  spawnId : Option String := none
  locked : Option JSVal := none
  x : Option ℚ := none
  y : Option ℚ := none
deriving DecidableEq

/-- One entry of a submitted action list: `null`/`undefined`, or an
object with optional `type` and `params` fields. -/
inductive ActionEntry where
  | nullEntry
  | obj (ty : Option String) (params : Option Params)
deriving DecidableEq

/-- The signal `_execute` returns: `'done'`, `'wait'` or `'stop'`. -/
inductive ExecResult where
  | done
  | wait
  | stop
deriving DecidableEq

/-- The `type` string of an entry, when it has one. -/
def kindOf : ActionEntry → Option String
  | .nullEntry => none
  | .obj ty _ => ty

/-- All `ActionRunner` fields except the queue, together with the
engine state `_execute` can reach, plus the ghost `log` of executed
actions (never read by any executable branch). -/
structure Core where
  engine : EngineSt
  running : Bool
  waitTimer : ℚ
  inputLocked : Bool
  sourceEntity : Option ℕ
  log : List ActionEntry
deriving DecidableEq

/-- The full interpreter state: `_queue` plus everything else. -/
structure RunnerState where
  queue : List ActionEntry
  core : Core
deriving DecidableEq

/-- Replace the `n`-th element of a list by `f` of it (used to model
mutating the entity object `_sourceEntity` references; out of range is
a no-op, matching a reference to an entity no longer in the table). -/
def mapNth {α : Type} (f : α → α) : ℕ → List α → List α
  | _, [] => []
  | 0, a :: as => f a :: as
  | n + 1, a :: as => a :: mapNth f n as

/-- `_finish()`: clear `running` and `sourceEntity` and force the input
lock off. -/
def finish (c : Core) : Core :=
  { c with running := false, sourceEntity := none, inputLocked := false }

/-- `_execute(action)` from `src/game/ActionRunner.js`, branch by
branch.  The ghost `log` records the action; `console.warn` in the
default branch is a pure no-op. -/
def execAction (action : ActionEntry) (c₀ : Core) : ExecResult × Core :=
  let c := { c₀ with log := c₀.log ++ [action] }
  match action with
  | .nullEntry => (.done, c)
  | .obj none _ => (.done, c)
  | .obj (some "") _ => (.done, c)
  | .obj (some ty) po =>
    let p := po.getD {}
    match ty with
    | "show_dialog" =>
        let text := jsOrStr p.text "..."
        let duration := jsOrQ p.duration 3
        let e1 := { c.engine with dialogText := some text, dialogTimer := duration }
        (.wait, { c with engine := e1, waitTimer := duration })
    | "wait" =>
        (.wait, { c with waitTimer := jsOrQ p.seconds 1 })
    | "set_flag" =>
        let gs1 := c.engine.gameState.setFlag (keyOf p.flag) (.boolV (jsNeqFalse p.value))
        (.done, { c with engine := { c.engine with gameState := gs1 } })
    | "check_flag" =>
        let actual := c.engine.gameState.getFlag (keyOf p.flag)
        let expected := jsNeqFalse p.expect
        if actual != expected then (.stop, c) else (.done, c)
    | "set_variable" =>
        let gs1 := c.engine.gameState.setVar (keyOf p.variable_) (p.value.getD (.num 0))
        (.done, { c with engine := { c.engine with gameState := gs1 } })
    | "add_variable" =>
        let gs1 := c.engine.gameState.addVar (keyOf p.variable_) (p.amount.getD 1)
        (.done, { c with engine := { c.engine with gameState := gs1 } })
    | "give_item" =>
        let amt := jsOrQ p.amount 1
        let gs1 := c.engine.gameState.addItem (keyOf p.item) amt
        let msg := "Got " ++ keyOf p.item ++ (if 1 < amt then " x" ++ toString amt else "") ++ "!"
        let e1 := { c.engine with gameState := gs1, dialogText := some msg, dialogTimer := 2 }
        (.wait, { c with engine := e1, waitTimer := 2 })
    | "remove_item" =>
        let gs1 := (c.engine.gameState.removeItem (keyOf p.item) (jsOrQ p.amount 1)).2
        (.done, { c with engine := { c.engine with gameState := gs1 } })
    | "check_item" =>
        if !(c.engine.gameState.hasItem (keyOf p.item) (jsOrQ p.amount 1)) then (.stop, c)
        else (.done, c)
    | "teleport" =>
        let spawnId := jsOrStr p.spawnId "default"
        let spawnEntity :=
          c.engine.entities.find? (fun e => e.etype == "spawn" && e.spawnId == some spawnId)
        match spawnEntity, c.engine.player with
        | some se, some pl =>
            let pl1 := { pl with x := se.x, y := se.y }
            (.done, { c with engine := { c.engine with player := some pl1 } })
        | _, _ => (.done, c)
    | "lock_input" =>
        (.done, { c with inputLocked := jsNeqFalse p.locked })
    | "camera_pan" =>
        let cam := c.engine.camera
        let cam1 :=
          { cam with targetPlayer := false, panTarget := some (jsOrQ p.x 0, jsOrQ p.y 0),
                     panDuration := jsOrQ p.duration 1, panElapsed := 0,
                     panStartX := cam.x, panStartY := cam.y }
        (.wait, { c with engine := { c.engine with camera := cam1 },
                         waitTimer := jsOrQ p.duration 1 })
    | "camera_follow" =>
        let cam1 := { c.engine.camera with panTarget := none }
        let cam2 :=
          match c.engine.player with
          | some _ => { cam1 with targetPlayer := true, smoothing := 0.15 }
          | none => cam1
        (.done, { c with engine := { c.engine with camera := cam2 } })
    | "remove_entity" =>
        match c.sourceEntity with
        | some i =>
            let ents := mapNth (fun e => { e with active := false }) i c.engine.entities
            (.done, { c with engine := { c.engine with entities := ents } })
        | none => (.done, c)
    | _ => (.done, c)

/-- The `while` loop of `_processQueue()`, with the queue threaded as
the recursion argument (`_execute` never touches `_queue`): pop the
head, execute, and interpret the signal.  Returns the leftover queue
and the rest of the state. -/
def processList : List ActionEntry → Core → List ActionEntry × Core
  | [], c => ([], finish c)
  | a :: rest, c =>
    match execAction a c with
    | (.wait, c1) => (rest, c1)
    | (.stop, c1) => ([], finish c1)
    | (.done, c1) => processList rest c1

/-- `_processQueue()`. -/
def processQueue (s : RunnerState) : RunnerState :=
  let r := processList s.queue s.core
  ⟨r.1, r.2⟩

/-- Spec-side auxiliary (not a source function): fold `_execute` over a
prefix of a list, returning the accumulated state when every action of
the prefix reported `'done'`, and `none` if any suspended or aborted.
Used to quantify over submitted lists whose earlier actions have
already executed when a mid-list check runs. -/
def drainDone : List ActionEntry → Core → Option Core
  | [], c => some c
  | a :: rest, c =>
    match execAction a c with
    | (.done, c1) => drainDone rest c1
    | _ => none

/-- `run(actions, sourceEntity)`: no-op on an empty list; append to the
live queue if already running; otherwise install the queue, record the
source, raise `running`, zero `waitTimer` and drain synchronously. -/
def run (actions : List ActionEntry) (sourceEntity : Option ℕ)
    (s : RunnerState) : RunnerState :=
  if actions = [] then s
  else if s.core.running then { s with queue := s.queue ++ actions }
  else
    processQueue ⟨actions,
      { s.core with sourceEntity := sourceEntity, running := true, waitTimer := 0 }⟩

/-- `update(dt)`: tick the wait timer; on crossing to `≤ 0`, clamp to 0
and resume draining. -/
def update (dt : ℚ) (s : RunnerState) : RunnerState :=
  if s.core.running = false then s
  else if 0 < s.core.waitTimer then
    let w := s.core.waitTimer - dt
    if w ≤ 0 then processQueue { s with core := { s.core with waitTimer := 0 } }
    else { s with core := { s.core with waitTimer := w } }
  else s

/-- A sequence of per-frame `update(dt)` calls. -/
def updates (dts : List ℚ) (s : RunnerState) : RunnerState :=
  dts.foldl (fun st dt => update dt st) s

/-- The `ActionRunner` constructor, over a given engine state. -/
def init (e : EngineSt) : RunnerState :=
  ⟨[], ⟨e, false, 0, false, none, []⟩⟩

/-- The `actionRunner` fragment of `Engine.setMode('play')`
(`src/engine/Engine.js`): the only interpreter mutation the whole mode
transition performs is `this.actionRunner.running = false`. -/
def setModePlayRunner (s : RunnerState) : RunnerState :=
  ⟨s.queue, { s.core with running := false }⟩

/-- States of the interpreter reachable from a freshly constructed
runner through any interleaving of `run` and `update`. -/
inductive Reachable : RunnerState → Prop where
  | init (e : EngineSt) : Reachable (init e)
  | run (acts : List ActionEntry) (src : Option ℕ) (s : RunnerState) :
      Reachable s → Reachable (run acts src s)
  | update (dt : ℚ) (s : RunnerState) :
      Reachable s → Reachable (update dt s)

/-- The action kinds whose `_execute` branch returns `'wait'`. -/
def suspendingKinds : List String :=
  ["show_dialog", "wait", "give_item", "camera_pan"]

/-- A `check_item` whose `hasItem` test fails, or a `check_flag` whose
flag disagrees with the expectation, in a given `GameState`. -/
def IsFailedCheck (a : ActionEntry) (g : GameState) : Prop :=
  (∃ po, a = .obj (some "check_item") po ∧
    g.hasItem (keyOf (po.getD {}).item) (jsOrQ (po.getD {}).amount 1) = false) ∨
  (∃ po, a = .obj (some "check_flag") po ∧
    g.getFlag (keyOf (po.getD {}).flag) ≠ jsNeqFalse (po.getD {}).expect)

/-- A list entry that is `null`/`undefined` or lacks a `type` field. -/
def Malformed (a : ActionEntry) : Prop :=
  a = .nullEntry ∨ ∃ po, a = .obj none po

/-- The fields of `GameLoop` (`src/engine/GameLoop.js`) that `_tick`
reads and writes; `rafId` and the `update`/`render` callbacks are
external.  `update(fixedDt)` is counted rather than interpreted. -/
structure LoopState where
  fixedDt : ℚ
  accumulator : ℚ
  lastTime : ℚ
  running : Bool
  fps : ℕ
  frameCount : ℕ
  fpsTimer : ℚ
deriving DecidableEq

/-- The `while (accumulator >= fixedDt)` loop of `_tick`: number of
`update(fixedDt)` invocations, and the leftover accumulator. -/
def drainLoop (fixedDt acc : ℚ) : ℕ × ℚ :=
  if h : 0 < fixedDt ∧ fixedDt ≤ acc then
    let r := drainLoop fixedDt (acc - fixedDt)
    (r.1 + 1, r.2)
  else (0, acc)
termination_by (⌈acc / fixedDt⌉).toNat
decreasing_by
  obtain ⟨hd, hle⟩ := h
  have h1 : (1 : ℚ) ≤ acc / fixedDt := (one_le_div hd).mpr hle
  have h2 : (acc - fixedDt) / fixedDt = acc / fixedDt - 1 := by
    rw [sub_div, div_self hd.ne']
  have h3 : (0 : ℤ) < ⌈acc / fixedDt⌉ := Int.ceil_pos.mpr (lt_of_lt_of_le one_pos h1)
  rw [h2, Int.ceil_sub_one]
  omega

/-- `_tick(timestamp)`: sample the clock (`timestamp` in milliseconds),
clamp the frame time to `0.25 s`, feed the accumulator, run the fixed
timestep loop, then maintain the FPS counter.  Returns the number of
`update(fixedDt)` calls made, paired with the new loop state.  The
`render(alpha)` call and `requestAnimationFrame` are external and touch
no `LoopState` field. -/
def tick (timestamp : ℚ) (s : LoopState) : ℕ × LoopState :=
  if s.running = false then (0, s)
  else
    let now := timestamp / 1000
    let ft0 := now - s.lastTime
    let frameTime := if ft0 > 1/4 then 1/4 else ft0
    let acc := s.accumulator + frameTime
    let r := drainLoop s.fixedDt acc
    let fc1 := s.frameCount + 1
    let ft1 := s.fpsTimer + frameTime
    if ft1 ≥ 1 then
      (r.1, { s with accumulator := r.2, lastTime := now,
                     fps := fc1, frameCount := 0, fpsTimer := ft1 - 1 })
    else
      (r.1, { s with accumulator := r.2, lastTime := now,
                     frameCount := fc1, fpsTimer := ft1 })

/-- The `Camera` constructor's initial state (position 0,0, smoothing
`0.1`, no target, no pan). -/
def cam₀ : CameraSt := ⟨0, 0, 0.1, false, none, 0, 0, 0, 0⟩

/-- A minimal concrete engine state: fresh `GameState`, no dialog, no
player, no placed entities. -/
def e₀ : EngineSt := ⟨GameState.new, none, 0, cam₀, none, []⟩

/-- `{ type: "set_flag", params: { flag: "f" } }`. -/
def flagActF : ActionEntry := .obj (some "set_flag") (some { flag := some "f" })

/-- `{ type: "set_flag", params: { flag: "g" } }`. -/
def flagActG : ActionEntry := .obj (some "set_flag") (some { flag := some "g" })

/-- `{ type: "lock_input", params: {} }` (locks: `undefined !== false`). -/
def lockAct : ActionEntry := .obj (some "lock_input") (some {})

/-- `{ type: "wait", params: { seconds: 1 } }`. -/
def waitAct1 : ActionEntry := .obj (some "wait") (some { seconds := some 1 })

/-- `{ type: "wait", params: { seconds: 2 } }`. -/
def waitAct2 : ActionEntry := .obj (some "wait") (some { seconds := some 2 })

/-- `{ type: "wait", params: { seconds: 5 } }`. -/
def waitAct5 : ActionEntry := .obj (some "wait") (some { seconds := some 5 })

/-- `{ type: "check_item", params: { item: "Key", amount: 1 } }`. -/
def chkKeyAct : ActionEntry :=
  .obj (some "check_item") (some { amount := some 1, item := some "Key" })

/-- `{ type: "give_item", params: { item: "Gold", amount: 1 } }`. -/
def giveGoldAct : ActionEntry :=
  .obj (some "give_item") (some { amount := some 1, item := some "Gold" })

/-- `{ type: "check_flag", params: { flag: "f", expect: false } }`. -/
def chkFlagFalseAct : ActionEntry :=
  .obj (some "check_flag")
    (some { flag := some "f", expect := some (.boolV false) })

/-- The core state in the middle of draining
`[set_flag f, check_flag f expect:false, give_item Gold]` submitted
from a fresh runner: `set_flag f` has executed, the check is next. -/
def cAfterPre : Core :=
  ⟨⟨⟨[("f", true)], [], []⟩, none, 0, cam₀, none, []⟩,
   true, 0, false, none, [flagActF]⟩

/-- A freshly started loop at `fixedDt = 1/60`, `lastTime = 0`. -/
def l₀ : LoopState := ⟨1/60, 0, 0, true, 0, 0, 0⟩

/-- The runner suspended on a 2-second `wait` with one queued action:
the state right after `run([wait 2, set_flag f])` from idle. -/
def sWait : RunnerState := run [waitAct2, flagActF] none (init e₀)

end GRR

namespace GRR

theorem execAction_log (a : ActionEntry) (c : Core) :
    (execAction a c).2.log = c.log ++ [a] := by
  unfold execAction
  repeat' first | rfl | dsimp only | split

theorem execAction_running (a : ActionEntry) (c : Core) :
    (execAction a c).2.running = c.running := by
  unfold execAction
  repeat' first | rfl | dsimp only | split

theorem finish_log (c : Core) : (finish c).log = c.log := rfl

theorem finish_running (c : Core) : (finish c).running = false := rfl

/-- Executed actions form a prefix of the processed list, in order; the
leftover queue is the matching suffix unless the pass finished (then it
is empty and `running` has been cleared). -/
theorem processList_spec (acts : List ActionEntry) (c : Core) :
    ∃ k, k ≤ acts.length ∧
      (processList acts c).2.log = c.log ++ acts.take k ∧
      ((processList acts c).1 = acts.drop k ∧
          (processList acts c).2.running = c.running ∨
        (processList acts c).1 = [] ∧ (processList acts c).2.running = false) := by
  induction acts generalizing c with
  | nil =>
      exact ⟨0, by simp [processList, finish]⟩
  | cons a rest ih =>
      rcases hE : execAction a c with ⟨res, c1⟩
      have hlog : c1.log = c.log ++ [a] := by
        have := execAction_log a c; rw [hE] at this; exact this
      have hrun : c1.running = c.running := by
        have := execAction_running a c; rw [hE] at this; exact this
      cases res with
      | wait =>
          refine ⟨1, Nat.succ_le_succ (Nat.zero_le rest.length), ?_, ?_⟩
          · simp [processList, hE, hlog]
          · left; simp [processList, hE, hrun]
      | stop =>
          refine ⟨1, Nat.succ_le_succ (Nat.zero_le rest.length), ?_, ?_⟩
          · simp [processList, hE, finish_log, hlog]
          · right; simp [processList, hE, finish_running]
      | done =>
          obtain ⟨k, hk, hlog2, hq⟩ := ih c1
          refine ⟨k + 1, Nat.succ_le_succ hk, ?_, ?_⟩
          · simp [processList, hE, hlog2, hlog, List.take_succ_cons]
          · rcases hq with ⟨h1, h2⟩ | ⟨h1, h2⟩
            · left; simp [processList, hE, h1, h2, hrun, List.drop_succ_cons]
            · right; simp [processList, hE, h1, h2]

/-- C10: a `null`/`undefined` list entry, or one without a `type`
field, is inert: `_execute` returns `'done'` and changes nothing (the
ghost log aside), so a list containing it simply continues with its
remaining actions in order. -/
theorem malformed_entry_inert (a : ActionEntry) (c : Core)
    (rest : List ActionEntry) (h : Malformed a) :
    execAction a c = (.done, { c with log := c.log ++ [a] }) ∧
    processList (a :: rest) c =
      processList rest { c with log := c.log ++ [a] } := by
  have h1 : execAction a c = (.done, { c with log := c.log ++ [a] }) := by
    rcases h with h | ⟨po, h⟩ <;> subst h <;> rfl
  exact ⟨h1, by simp [processList, h1]⟩

theorem malformed_entry_inert_witness :
    execAction .nullEntry ⟨e₀, true, 0, false, none, []⟩ =
      (.done, ⟨e₀, true, 0, false, none, [.nullEntry]⟩) := by
  simpa using
    (malformed_entry_inert .nullEntry ⟨e₀, true, 0, false, none, []⟩ []
      (Or.inl rfl)).1

theorem execAction_not_wait (a : ActionEntry) (c : Core)
    (h : ∀ t, kindOf a = some t → t ∉ suspendingKinds) :
    (execAction a c).1 ≠ .wait := by
  cases a with
  | nullEntry => simp [execAction]
  | obj ty po =>
    cases ty with
    | none => simp [execAction]
    | some t =>
      have ht := h t rfl
      simp only [suspendingKinds, List.mem_cons, List.not_mem_nil, or_false] at ht
      push_neg at ht
      obtain ⟨h1, h2, h3, h4⟩ := ht
      unfold execAction
      repeat' first | dsimp only | split
      all_goals simp_all

/-- C5: from `Idle`, a single-action list whose kind is not one of the
four suspending kinds (`show_dialog`, `wait`, `give_item`,
`camera_pan`) — so any of `set_flag`, `set_variable`, `add_variable`,
`check_flag`, `check_item`, `remove_item`, `teleport`, `lock_input`,
`camera_follow`, `remove_entity`, or an unknown kind — executes within
the same `run` call (its entry is logged) and `running` is `false`
immediately after `run` returns. -/
theorem non_suspending_sync (s : RunnerState) (a : ActionEntry)
    (src : Option ℕ) (hidle : s.core.running = false)
    (h : ∀ t, kindOf a = some t → t ∉ suspendingKinds) :
    (run [a] src s).core.running = false ∧
    (run [a] src s).core.log = s.core.log ++ [a] := by
  have hne : ¬([a] = ([] : List ActionEntry)) := by simp
  rcases hE : execAction a
      { s.core with sourceEntity := src, running := true, waitTimer := 0 } with
    ⟨res, c1⟩
  have hnw : res ≠ .wait := by
    have h0 := execAction_not_wait a
      { s.core with sourceEntity := src, running := true, waitTimer := 0 } h
    rw [hE] at h0; exact h0
  have hlog : c1.log = s.core.log ++ [a] := by
    have h0 := execAction_log a
      { s.core with sourceEntity := src, running := true, waitTimer := 0 }
    rw [hE] at h0; exact h0
  cases res with
  | wait => exact absurd rfl hnw
  | stop =>
      constructor <;>
        simp [run, hidle, hne, processQueue, processList, hE, finish, hlog]
  | done =>
      constructor <;>
        simp [run, hidle, hne, processQueue, processList, hE, finish, hlog]

theorem non_suspending_sync_witness :
    (run [flagActF] none (init e₀)).core.running = false ∧
    (run [flagActF] none (init e₀)).core.log = (init e₀).core.log ++ [flagActF] := by
  refine non_suspending_sync (init e₀) flagActF none rfl ?_
  intro t ht
  simp only [flagActF, kindOf, Option.some.injEq] at ht
  subst ht
  decide

theorem execAction_failed_check (chk : ActionEntry) (c : Core)
    (hchk : IsFailedCheck chk c.engine.gameState) :
    execAction chk c = (.stop, { c with log := c.log ++ [chk] }) := by
  rcases hchk with ⟨po, rfl, hfail⟩ | ⟨po, rfl, hfail⟩
  · simp [execAction, hfail]
  · simp [execAction, hfail]

theorem drainDone_processList (pre : List ActionEntry) :
    ∀ (rest : List ActionEntry) (c c₁ : Core), drainDone pre c = some c₁ →
      processList (pre ++ rest) c = processList rest c₁ := by
  induction pre with
  | nil =>
      intro rest c c₁ h
      simp only [drainDone, Option.some.injEq] at h
      subst h
      simp
  | cons a t ih =>
      intro rest c c₁ h
      rw [drainDone] at h
      rcases hE : execAction a c with ⟨res, c2⟩
      rw [hE] at h
      cases res with
      | done =>
          rw [List.cons_append, processList, hE]
          exact ih rest c2 c₁ h
      | wait => exact absurd h (by simp)
      | stop => exact absurd h (by simp)

theorem drainDone_log (pre : List ActionEntry) :
    ∀ (c c₁ : Core), drainDone pre c = some c₁ → c₁.log = c.log ++ pre := by
  induction pre with
  | nil =>
      intro c c₁ h
      simp only [drainDone, Option.some.injEq] at h
      subst h
      simp
  | cons a t ih =>
      intro c c₁ h
      rw [drainDone] at h
      rcases hE : execAction a c with ⟨res, c2⟩
      rw [hE] at h
      cases res with
      | done =>
          have hl := execAction_log a c
          rw [hE] at hl
          rw [ih c2 c₁ h, hl]
          simp
      | wait => exact absurd h (by simp)
      | stop => exact absurd h (by simp)

/-- C2: a `check_item` (or `check_flag`) whose expectation is unmet at
the moment it executes aborts its list wherever it sits.  First
conjunct: at any drain position (any prior state `c`, so any actions
may already have executed), the failing check discards every following
action unexecuted — only the check is logged, the queue ends empty —
and finishes with the engine state exactly as it was when the check
ran.  Remaining conjuncts: for a whole submitted list
`pre ++ chk :: post` from `Idle` whose prefix drains with Continue
signals, the submission ends idle with queue `[]`, log
`pre ++ [chk]` appended (so `post` never executed), and the engine —
in particular the inventory a skipped `give_item` would have written —
exactly as the check found it; being fully idle, a second list
submitted afterwards executes normally. -/
theorem failed_check_aborts (s : RunnerState) (pre post : List ActionEntry)
    (chk : ActionEntry) (src : Option ℕ) (c₁ : Core)
    (hidle : s.core.running = false)
    (hpre : drainDone pre
      { s.core with sourceEntity := src, running := true, waitTimer := 0 }
      = some c₁)
    (hchk : IsFailedCheck chk c₁.engine.gameState) :
    (∀ c : Core, IsFailedCheck chk c.engine.gameState →
        processList (chk :: post) c =
          ([], { c with running := false, sourceEntity := none,
                        inputLocked := false, log := c.log ++ [chk] })) ∧
    c₁.log = s.core.log ++ pre ∧
    run (pre ++ chk :: post) src s =
      ⟨[], { c₁ with running := false, sourceEntity := none,
                     inputLocked := false, log := c₁.log ++ [chk] }⟩ ∧
    (run (pre ++ chk :: post) src s).core.engine = c₁.engine := by
  have ha : ∀ c : Core, IsFailedCheck chk c.engine.gameState →
      processList (chk :: post) c =
        ([], { c with running := false, sourceEntity := none,
                      inputLocked := false, log := c.log ++ [chk] }) := by
    intro c hc
    have hstop := execAction_failed_check chk c hc
    simp [processList, hstop, finish]
  have hne : ¬(pre ++ chk :: post = ([] : List ActionEntry)) := by simp
  have hrun : run (pre ++ chk :: post) src s =
      ⟨[], { c₁ with running := false, sourceEntity := none,
                     inputLocked := false, log := c₁.log ++ [chk] }⟩ := by
    rw [run.eq_def]
    simp only [hne, if_false, hidle, Bool.false_eq_true, processQueue]
    rw [drainDone_processList pre (chk :: post) _ c₁ hpre, ha c₁ hchk]
  exact ⟨ha,
    drainDone_log pre
      { s.core with sourceEntity := src, running := true, waitTimer := 0 }
      c₁ hpre,
    hrun, by rw [hrun]⟩

theorem failed_check_aborts_witness :
    run [flagActF, chkFlagFalseAct, giveGoldAct] none (init e₀) =
      ⟨[], { cAfterPre with running := false, sourceEntity := none,
                            inputLocked := false,
                            log := cAfterPre.log ++ [chkFlagFalseAct] }⟩ ∧
    (run [flagActF, chkFlagFalseAct, giveGoldAct] none
      (init e₀)).core.engine.gameState.inventory = [] := by
  have h := failed_check_aborts (init e₀) [flagActF] [giveGoldAct]
    chkFlagFalseAct none cAfterPre rfl rfl
    (Or.inr ⟨some { flag := some "f", expect := some (.boolV false) },
      rfl, by decide⟩)
  refine ⟨h.2.2.1, ?_⟩
  rw [show [flagActF, chkFlagFalseAct, giveGoldAct] =
    [flagActF] ++ chkFlagFalseAct :: [giveGoldAct] from rfl, h.2.2.1]
  rfl

theorem processList_unlocked (acts : List ActionEntry) (c : Core)
    (hc : c.running = true)
    (hr : (processList acts c).2.running = false) :
    (processList acts c).2.inputLocked = false := by
  induction acts generalizing c with
  | nil => simp [processList, finish]
  | cons a rest ih =>
      rcases hE : execAction a c with ⟨res, c1⟩
      have hrun : c1.running = c.running := by
        have h0 := execAction_running a c; rw [hE] at h0; exact h0
      cases res with
      | wait =>
          rw [processList, hE] at hr
          simp only [processList, hE]
          rw [hr] at hrun
          rw [hc] at hrun
          exact absurd hrun (by simp)
      | stop => simp [processList, hE, finish]
      | done =>
          rw [processList, hE] at hr ⊢
          exact ih c1 (hrun.trans hc) hr

/-- C3: in every interpreter state reachable through `run`/`update`
(whatever the submitted lists, including a `lock_input` with no
matching unlock), `running = false` implies `isInputLocked = false`:
once a queue drains naturally or aborts, the input lock is forced off
by `_finish`. -/
theorem running_false_unlocked (s : RunnerState) (hs : Reachable s)
    (hr : s.core.running = false) : s.core.inputLocked = false := by
  revert hr
  induction hs with
  | init e => intro _; rfl
  | run acts src s hs ih =>
      intro hr
      by_cases he : acts = []
      · simp only [run, if_pos he] at hr ⊢
        exact ih hr
      · by_cases hb : s.core.running = true
        · simp [run, he, hb] at hr
        · have hb' : s.core.running = false := by
            simpa using hb
          simp only [run, if_neg he, hb', Bool.false_eq_true, if_false,
            processQueue] at hr ⊢
          exact processList_unlocked _ _ rfl hr
  | update dt s hs ih =>
      intro hr
      by_cases hb : s.core.running = false
      · simp only [update, if_pos hb] at hr ⊢
        exact ih hr
      · have hb' : s.core.running = true := by
          simpa using hb
        by_cases hw : 0 < s.core.waitTimer
        · by_cases hz : s.core.waitTimer - dt ≤ 0
          · simp only [update, hb', Bool.true_eq_false, if_false, if_pos hw,
              if_pos hz, processQueue] at hr ⊢
            exact processList_unlocked _ _ rfl hr
          · simp [update, hb', hw, hz] at hr
        · simp only [update, hb', Bool.true_eq_false, if_false,
            if_neg hw] at hr ⊢

theorem running_false_unlocked_witness :
    (run [lockAct] none (init e₀)).core.inputLocked = false :=
  running_false_unlocked (run [lockAct] none (init e₀))
    (Reachable.run [lockAct] none (init e₀) (Reachable.init e₀)) (by decide)

theorem updates_nil (s : RunnerState) : updates [] s = s := rfl

theorem updates_cons (d : ℚ) (dts : List ℚ) (s : RunnerState) :
    updates (d :: dts) s = updates dts (update d s) := rfl

theorem updates_below (dts : List ℚ) :
    ∀ (s : RunnerState) (w : ℚ), s.core.running = true →
      s.core.waitTimer = w → (∀ d ∈ dts, 0 ≤ d) → dts.sum < w →
      updates dts s =
        { s with core := { s.core with waitTimer := w - dts.sum } } := by
  induction dts with
  | nil =>
      intro s w hrun hw _ _
      obtain ⟨q, e, r, wt, il, se, lg⟩ := s
      simp only at hw
      subst hw
      simp [updates_nil]
  | cons d rest ih =>
      intro s w hrun hw hnn hlt
      have hd0 : 0 ≤ d := hnn d (by simp)
      have hrest : ∀ x ∈ rest, 0 ≤ x := fun x hx => hnn x (by simp [hx])
      have hsum0 : 0 ≤ rest.sum := List.sum_nonneg hrest
      have hsums : d + rest.sum < w := by simpa [List.sum_cons] using hlt
      have hdw : d < w := lt_of_le_of_lt (le_add_of_nonneg_right hsum0) hsums
      obtain ⟨q, e, r, wt, il, se, lg⟩ := s
      simp only at hrun hw
      subst hrun
      subst hw
      have hupd : update d ⟨q, e, true, wt, il, se, lg⟩ =
          ⟨q, e, true, wt - d, il, se, lg⟩ := by
        have h1 : 0 < wt := lt_of_le_of_lt hd0 hdw
        have h2 : ¬(wt - d ≤ 0) := by linarith
        simp [update, h1, h2]
      rw [updates_cons, hupd,
        ih ⟨q, e, true, wt - d, il, se, lg⟩ (wt - d) rfl rfl hrest (by linarith)]
      simp only [List.sum_cons]
      congr 1
      ring_nf

theorem updates_exact (dts : List ℚ) :
    ∀ (s : RunnerState) (w : ℚ), s.core.running = true →
      s.core.waitTimer = w → 0 < w → (∀ d ∈ dts, 0 < d) → dts.sum = w →
      updates dts s =
        processQueue { s with core := { s.core with waitTimer := 0 } } := by
  induction dts with
  | nil =>
      intro s w _ _ hw0 _ hsum
      simp only [List.sum_nil] at hsum
      rw [← hsum] at hw0
      exact absurd hw0 (lt_irrefl 0)
  | cons d rest ih =>
      intro s w hrun hw hw0 hpos hsum
      have hd0 : 0 < d := hpos d (by simp)
      have hrest : ∀ x ∈ rest, 0 < x := fun x hx => hpos x (by simp [hx])
      have hsum0 : 0 ≤ rest.sum := List.sum_nonneg fun x hx => (hrest x hx).le
      have hsums : d + rest.sum = w := by simpa [List.sum_cons] using hsum
      have hdw : d ≤ w := by linarith
      obtain ⟨q, e, r, wt, il, se, lg⟩ := s
      simp only at hrun hw
      subst hrun
      subst hw
      rcases eq_or_lt_of_le hdw with heq | hlt
      · have hrest0 : rest = [] := by
          cases rest with
          | nil => rfl
          | cons a t =>
              exfalso
              have ha : 0 < a := hrest a (by simp)
              have ht : 0 ≤ t.sum := List.sum_nonneg
                fun x hx => (hrest x (by simp [hx])).le
              have : (a :: t).sum = 0 := by linarith [hsums, heq]
              simp only [List.sum_cons] at this
              linarith
        subst hrest0
        have hupd : update d ⟨q, e, true, wt, il, se, lg⟩ =
            processQueue ⟨q, e, true, 0, il, se, lg⟩ := by
          have h2 : wt - d ≤ 0 := by linarith
          simp [update, hw0, h2]
        rw [updates_cons, updates_nil, hupd]
      · have hupd : update d ⟨q, e, true, wt, il, se, lg⟩ =
            ⟨q, e, true, wt - d, il, se, lg⟩ := by
          have h2 : ¬(wt - d ≤ 0) := by linarith
          simp [update, hw0, h2]
        rw [updates_cons, hupd,
          ih ⟨q, e, true, wt - d, il, se, lg⟩ (wt - d) rfl rfl (by linarith)
            hrest (by linarith)]

/-- C4: once a `wait` (or any suspension) has left the runner with
`waitTimer = w > 0`, any `update(dt)` sequence of nonnegative ticks
summing to less than `w` leaves the state identical except for the
reduced timer (still running, queue untouched, engine — in particular
`GameState` — unmutated), while any sequence of positive ticks summing
to exactly `w` resumes draining the queue at that point. -/
theorem wait_timing (s : RunnerState) (w : ℚ) (dts₁ dts₂ : List ℚ)
    (hrun : s.core.running = true) (hw : s.core.waitTimer = w) (hw0 : 0 < w)
    (h₁ : ∀ d ∈ dts₁, 0 ≤ d) (hs₁ : dts₁.sum < w)
    (h₂ : ∀ d ∈ dts₂, 0 < d) (hs₂ : dts₂.sum = w) :
    updates dts₁ s =
      { s with core := { s.core with waitTimer := w - dts₁.sum } } ∧
    updates dts₂ s =
      processQueue { s with core := { s.core with waitTimer := 0 } } :=
  ⟨updates_below dts₁ s w hrun hw h₁ hs₁,
   updates_exact dts₂ s w hrun hw hw0 h₂ hs₂⟩

theorem wait_timing_witness :
    updates [(1:ℚ)/2, 1/2] sWait =
      { sWait with core :=
          { sWait.core with waitTimer := 2 - ([(1:ℚ)/2, 1/2]).sum } } ∧
    updates [(1:ℚ), 1] sWait =
      processQueue { sWait with core := { sWait.core with waitTimer := 0 } } :=
  wait_timing sWait 2 [(1:ℚ)/2, 1/2] [(1:ℚ), 1] (by decide) (by decide)
    (by norm_num)
    (by intro d hd; fin_cases hd <;> norm_num)
    (by norm_num)
    (by intro d hd; fin_cases hd <;> norm_num)
    (by norm_num)

/-- One `update` preserves the invariant "the log extends `L0` by an
in-order prefix of the submitted sequence `F`, and the queue is the
matching suffix (or has been discarded)". -/
theorem update_log_inv (L0 F : List ActionEntry) (dt : ℚ) (s : RunnerState)
    (h : ∃ k, s.core.log = L0 ++ F.take k ∧
      (s.queue = F.drop k ∨ s.queue = [])) :
    ∃ k, (update dt s).core.log = L0 ++ F.take k ∧
      ((update dt s).queue = F.drop k ∨ (update dt s).queue = []) := by
  obtain ⟨k, hlog, hq⟩ := h
  unfold update
  split
  · exact ⟨k, hlog, hq⟩
  · split
    · dsimp only
      split
      · -- resume: processQueue on the zeroed-timer state
        obtain ⟨j, hj, hlog2, hq2⟩ :=
          processList_spec s.queue { s.core with waitTimer := 0 }
        have hlog2' : (processList s.queue { s.core with waitTimer := 0 }).2.log
            = s.core.log ++ s.queue.take j := hlog2
        rcases hq with hqk | hqe
        · refine ⟨k + j, ?_, ?_⟩
          · show (processList s.queue { s.core with waitTimer := 0 }).2.log = _
            rw [hlog2', hlog, hqk, List.append_assoc, ← List.take_add]
          · show (processList s.queue { s.core with waitTimer := 0 }).1 = _ ∨
              (processList s.queue { s.core with waitTimer := 0 }).1 = _
            rcases hq2 with ⟨hdrop, _⟩ | ⟨hnil, _⟩
            · left
              rw [hdrop, hqk, List.drop_drop]
            · right
              exact hnil
        · refine ⟨k, ?_, ?_⟩
          · show (processList s.queue { s.core with waitTimer := 0 }).2.log = _
            rw [hlog2', hqe, hlog]
            simp
          · show (processList s.queue { s.core with waitTimer := 0 }).1 = _ ∨
              (processList s.queue { s.core with waitTimer := 0 }).1 = _
            right
            rcases hq2 with ⟨hdrop, _⟩ | ⟨hnil, _⟩
            · rw [hdrop, hqe, List.drop_nil]
            · exact hnil
      · exact ⟨k, hlog, hq⟩
    · exact ⟨k, hlog, hq⟩

theorem updates_log_inv (dts : List ℚ) (L0 F : List ActionEntry) :
    ∀ s : RunnerState,
      (∃ k, s.core.log = L0 ++ F.take k ∧
        (s.queue = F.drop k ∨ s.queue = [])) →
      ∃ k, (updates dts s).core.log = L0 ++ F.take k ∧
        ((updates dts s).queue = F.drop k ∨ (updates dts s).queue = []) := by
  induction dts with
  | nil => exact fun s h => h
  | cons d rest ih =>
      intro s h
      rw [updates_cons]
      exact ih (update d s) (update_log_inv L0 F d s h)

/-- C1: submit `[A, B]`; while the script is still running, submit
`[C]`.  The second submission lands at the tail of the live queue, and
after any further sequence of `update(dt)` calls the executed-action
log has grown by an in-order prefix of `[A, B, C]` — so A, B, C execute
in that order and never as A, C, B. -/
theorem fifo_order (s : RunnerState) (A B C : ActionEntry)
    (src₁ src₂ : Option ℕ) (dts : List ℚ)
    (hidle : s.core.running = false)
    (hrun : (run [A, B] src₁ s).core.running = true) :
    (run [C] src₂ (run [A, B] src₁ s)).queue =
      (run [A, B] src₁ s).queue ++ [C] ∧
    ∃ k, k ≤ 3 ∧
      (updates dts (run [C] src₂ (run [A, B] src₁ s))).core.log =
        s.core.log ++ [A, B, C].take k := by
  have hne : ¬([A, B] = ([] : List ActionEntry)) := by simp
  have hneC : ¬([C] = ([] : List ActionEntry)) := by simp
  have hs1 : run [A, B] src₁ s = processQueue ⟨[A, B],
      { s.core with sourceEntity := src₁, running := true, waitTimer := 0 }⟩ := by
    simp [run, hne, hidle]
  obtain ⟨k1, hk1, hlog1, hq1⟩ :=
    processList_spec [A, B]
      { s.core with sourceEntity := src₁, running := true, waitTimer := 0 }
  have hrun1 : (processList [A, B]
      { s.core with sourceEntity := src₁, running := true, waitTimer := 0 }).2.running
      = true := by
    rw [hs1] at hrun
    exact hrun
  have hq1' : (processList [A, B]
      { s.core with sourceEntity := src₁, running := true, waitTimer := 0 }).1
      = ([A, B] : List ActionEntry).drop k1 := by
    rcases hq1 with ⟨hdrop, _⟩ | ⟨_, hfalse⟩
    · exact hdrop
    · rw [hrun1] at hfalse
      exact absurd hfalse (by simp)
  have hC : run [C] src₂ (run [A, B] src₁ s) =
      { run [A, B] src₁ s with queue := (run [A, B] src₁ s).queue ++ [C] } := by
    rw [run.eq_def]
    simp [hneC, hrun]
  refine ⟨by rw [hC], ?_⟩
  have hinv : ∃ k, (run [C] src₂ (run [A, B] src₁ s)).core.log =
      s.core.log ++ ([A, B, C] : List ActionEntry).take k ∧
      ((run [C] src₂ (run [A, B] src₁ s)).queue =
          ([A, B, C] : List ActionEntry).drop k ∨
        (run [C] src₂ (run [A, B] src₁ s)).queue = []) := by
    refine ⟨k1, ?_, Or.inl ?_⟩
    · rw [hC]
      show (run [A, B] src₁ s).core.log = _
      rw [hs1]
      show (processList [A, B]
        { s.core with sourceEntity := src₁, running := true, waitTimer := 0 }).2.log = _
      rw [hlog1]
      have : ([A, B, C] : List ActionEntry).take k1
          = ([A, B] : List ActionEntry).take k1 := by
        have h3 : ([A, B, C] : List ActionEntry) = [A, B] ++ [C] := rfl
        rw [h3, List.take_append_of_le_length hk1]
      rw [this]
    · rw [hC]
      show (run [A, B] src₁ s).queue ++ [C] = _
      rw [hs1]
      show (processList [A, B]
        { s.core with sourceEntity := src₁, running := true, waitTimer := 0 }).1 ++ [C] = _
      rw [hq1']
      have h3 : ([A, B, C] : List ActionEntry) = [A, B] ++ [C] := rfl
      rw [h3, List.drop_append_of_le_length hk1]
  obtain ⟨k, hlog, _⟩ :=
    updates_log_inv dts s.core.log [A, B, C]
      (run [C] src₂ (run [A, B] src₁ s)) hinv
  rcases le_or_lt k 3 with hk3 | hk3
  · exact ⟨k, hk3, hlog⟩
  · refine ⟨3, le_refl 3, ?_⟩
    rw [hlog, List.take_of_length_le (by simp; omega),
      List.take_of_length_le (by simp)]

theorem fifo_order_witness :
    (run [flagActG] none (run [waitAct1, flagActF] none (init e₀))).queue =
      (run [waitAct1, flagActF] none (init e₀)).queue ++ [flagActG] ∧
    ∃ k, k ≤ 3 ∧
      (updates [(1:ℚ)]
        (run [flagActG] none (run [waitAct1, flagActF] none (init e₀)))).core.log =
        (init e₀).core.log ++ [waitAct1, flagActF, flagActG].take k :=
  fifo_order (init e₀) waitAct1 flagActF flagActG none none [(1:ℚ)] rfl (by decide)

theorem drainLoop_le (n : ℕ) : ∀ (d a : ℚ), 0 < d → a < (n + 1) * d →
    (drainLoop d a).1 ≤ n := by
  induction n with
  | zero =>
      intro d a hd ha
      rw [drainLoop, dif_neg]
      rintro ⟨-, hle⟩
      rw [Nat.cast_zero, zero_add, one_mul] at ha
      linarith
  | succ n ih =>
      intro d a hd ha
      rw [drainLoop]
      split
      · dsimp only
        refine Nat.succ_le_succ (ih d (a - d) hd ?_)
        have hr : ((n : ℚ) + 1 + 1) * d = ((n : ℚ) + 1) * d + d := by ring
        push_cast at ha
        linarith
      · simp

/-- C6: whatever the wall-clock gap between two frame callbacks (for
example a 10-second stall), `_tick` clamps the frame time to `0.25 s`
before feeding the accumulator, so a single callback runs the fixed
timestep update at most `0.25 / fixedDt` times (15 at `fixedDt = 1/60`)
rather than `elapsed / fixedDt` times. -/
theorem clock_clamp_bound (s : LoopState) (t : ℚ) (n : ℕ)
    (hrun : s.running = true) (hd : 0 < s.fixedDt)
    (hacc : s.accumulator < s.fixedDt) (hn : (1/4 : ℚ) ≤ n * s.fixedDt) :
    (tick t s).1 ≤ n := by
  have hft : (if (t / 1000 - s.lastTime) > 1/4 then (1/4 : ℚ)
      else (t / 1000 - s.lastTime)) ≤ 1/4 := by
    split
    · exact le_refl _
    · linarith [not_lt.mp (by assumption : ¬(t / 1000 - s.lastTime > 1/4))]
  have hbound : s.accumulator +
      (if (t / 1000 - s.lastTime) > 1/4 then (1/4 : ℚ)
       else (t / 1000 - s.lastTime)) < ((n : ℚ) + 1) * s.fixedDt := by
    have hr : ((n : ℚ) + 1) * s.fixedDt = (n : ℚ) * s.fixedDt + s.fixedDt := by
      ring
    linarith
  have hfst : (tick t s).1 = (drainLoop s.fixedDt (s.accumulator +
      (if (t / 1000 - s.lastTime) > 1/4 then (1/4 : ℚ)
       else (t / 1000 - s.lastTime)))).1 := by
    unfold tick
    rw [if_neg (by simp [hrun])]
    dsimp only
    repeat' split
    all_goals rfl
  rw [hfst]
  exact drainLoop_le n s.fixedDt _ hd hbound

theorem clock_clamp_bound_witness : (tick 10000 l₀).1 ≤ 15 :=
  clock_clamp_bound l₀ 10000 15 rfl (by norm_num [l₀]) (by norm_num [l₀])
    (by norm_num [l₀])

/-- C7 counterexample: with the runner suspended on a 5-second `wait`
and one queued action, `Engine.setMode('play')` leaves the interpreter
with the action still queued and `waitTimer = 5` — it clears neither
the queue nor the pending wait, contradicting the claim that after the
reset the interpreter holds no pending actions and no pending wait. -/
theorem setMode_reset_counterexample :
    (setModePlayRunner (run [waitAct5, flagActF] none (init e₀))).core.running
      = false ∧
    (setModePlayRunner (run [waitAct5, flagActF] none (init e₀))).queue
      = [flagActF] ∧
    (setModePlayRunner (run [waitAct5, flagActF] none (init e₀))).core.waitTimer
      = 5 := by
  decide

/-- C7 amended: the only interpreter mutation `Engine.setMode('play')`
performs is clearing `running`; the queue and `waitTimer` keep their
old values.  The stale remnants are inert: `update` is a no-op while
`running` is false, and the next nonempty `run` replaces the queue,
re-records the source and zeroes `waitTimer` before draining. -/
theorem setMode_play_clears_running_only (s : RunnerState) :
    (setModePlayRunner s).core.running = false ∧
    (setModePlayRunner s).queue = s.queue ∧
    (setModePlayRunner s).core.waitTimer = s.core.waitTimer ∧
    (∀ dt, update dt (setModePlayRunner s) = setModePlayRunner s) ∧
    ∀ acts src, ¬(acts = ([] : List ActionEntry)) →
      run acts src (setModePlayRunner s) =
        processQueue ⟨acts, { s.core with sourceEntity := src, running := true,
                                          waitTimer := 0 }⟩ := by
  obtain ⟨q, e, r, w, il, se, lg⟩ := s
  refine ⟨rfl, rfl, rfl, ?_, ?_⟩
  · intro dt
    simp [update, setModePlayRunner]
  · intro acts src hne
    simp [run, setModePlayRunner, hne]

theorem setMode_play_clears_running_only_witness :
    run [flagActF] none (setModePlayRunner sWait) =
      processQueue ⟨[flagActF], { sWait.core with sourceEntity := none,
                                                  running := true,
                                                  waitTimer := 0 }⟩ :=
  (setMode_play_clears_running_only sWait).2.2.2.2 [flagActF] none (by simp)

/-- C8 counterexample: a single callback 10 seconds after the previous
sample adds only the clamped `0.25 s` to the FPS window accumulator
(`fpsTimer`), not its 10-second wall-clock duration — the counter does
not sum unclamped frame times. -/
theorem fps_unclamped_counterexample :
    (tick 10000 l₀).2.fpsTimer = 1/4 ∧ ((1 : ℚ)/4) ≠ 10 := by
  constructor
  · unfold tick l₀
    norm_num
  · norm_num

/-- C8 amended: the FPS counter's rolling-window accumulator advances
by exactly the clamped frame time, `min (now - lastTime) 0.25` — the
same capped value the simulation accumulator receives — wrapping by 1
when the window closes. -/
theorem fps_counter_clamped (s : LoopState) (t : ℚ) (hrun : s.running = true) :
    (tick t s).2.fpsTimer =
      (if s.fpsTimer + min (t / 1000 - s.lastTime) (1/4) ≥ 1
       then s.fpsTimer + min (t / 1000 - s.lastTime) (1/4) - 1
       else s.fpsTimer + min (t / 1000 - s.lastTime) (1/4)) := by
  have hmin : (if (t / 1000 - s.lastTime) > 1/4 then (1/4 : ℚ)
      else (t / 1000 - s.lastTime)) = min (t / 1000 - s.lastTime) (1/4) := by
    rcases le_or_lt (t / 1000 - s.lastTime) (1/4) with h | h
    · rw [if_neg (not_lt.mpr h), min_eq_left h]
    · rw [if_pos h, min_eq_right h.le]
  unfold tick
  rw [if_neg (by simp [hrun])]
  dsimp only
  rw [hmin]
  split <;> rfl

theorem fps_counter_clamped_witness :
    (tick 10000 l₀).2.fpsTimer =
      (if l₀.fpsTimer + min ((10000 : ℚ) / 1000 - l₀.lastTime) (1/4) ≥ 1
       then l₀.fpsTimer + min ((10000 : ℚ) / 1000 - l₀.lastTime) (1/4) - 1
       else l₀.fpsTimer + min ((10000 : ℚ) / 1000 - l₀.lastTime) (1/4)) :=
  fps_counter_clamped l₀ 10000 rfl

end GRR

namespace GRR

/-- C9: serializing a `GameState` and deserializing onto any (e.g. fresh)
`GameState` reproduces exactly the original flags, variables and
inventory, whatever the insertion order of the flag/variable keys. -/
theorem gameState_serialize_roundtrip (g g₀ : GameState) :
    g₀.deserialize (some g.serialize) = g := by
  cases g with
  | mk flags vars inventory =>
      simp [GameState.deserialize, GameState.serialize]

end GRR
